import Mathlib

/-!
Shallow embedding of the customer segmentation & retention pipeline
(`src/features/build_features.py`, `src/models/churn_model.py`,
`src/models/ltv_model.py`, `src/business/offer_recommender.py`).

Transactions are rows with a customer id, an invoice date (whole days,
modelled as `ℤ`) and a monetary amount (modelled as `ℚ`).  Pandas
operations used by the code (groupby/agg, `qcut`, `rank(method='first')`,
`quantile`, `median`, `reindex`, `fillna`) are embedded as executable
functions on lists.
-/

/-- A cleaned transaction row: `CustomerID`, `InvoiceDate` (days), `TotalPrice`. -/
structure Tx where
  cust : ℕ
  date : ℤ
  amount : ℚ
deriving DecidableEq

/-- Maximum of a list of dates (`df[date_col].max()`); junk `0` on the
empty list, which the pipeline never consults. -/
def maxDate (tx : List Tx) : ℤ :=
  (tx.map (·.date)).foldl max (((tx.map (·.date)).headD 0))

/-- The invoice dates of one customer's transactions (one group of
`df.groupby(customer_id)`). -/
def custDates (tx : List Tx) (c : ℕ) : List ℤ :=
  (tx.filter (fun t => t.cust = c)).map (·.date)

/-- `x.max()` over a group of dates. -/
def lastOf (l : List ℤ) : ℤ := l.foldl max (l.headD 0)

/-- `x.min()` over a group of dates. -/
def firstOf (l : List ℤ) : ℤ := l.foldl min (l.headD 0)

/-- `df.groupby(customer_id)[date_col].max()` as a partial lookup:
`none` when the customer has no transactions. -/
def lastPurchase? (tx : List Tx) (c : ℕ) : Option ℤ :=
  match custDates tx c with
  | [] => none
  | d :: rest => some (rest.foldl max d)

/-- Days since a customer's last purchase after the
`reindex(..., fill_value=churn_window_days + 1)` step of
`define_churn_labels`: customers absent from the transactions get the
sentinel `w + 1`. -/
def daysSinceLast (tx : List Tx) (ref : ℤ) (w : ℕ) (c : ℕ) : ℤ :=
  match lastPurchase? tx c with
  | some d => ref - d
  | none => (w : ℤ) + 1

/-- `define_churn_labels` (src/models/churn_model.py): one `(customer,
label)` pair per entry of the feature table's index, label `1` iff the
days since the last purchase exceed the churn window.  The reference
date defaults to the maximum transaction date. -/
def define_churn_labels (tx : List Tx) (featIdx : List ℕ) (w : ℕ)
    (refOpt : Option ℤ) : List (ℕ × ℕ) :=
  let ref := refOpt.getD (maxDate tx)
  featIdx.map fun c => (c, if (w : ℤ) < daysSinceLast tx ref w c then 1 else 0)

/-- `assign_segment` (src/features/build_features.py): the nested
if/elif chain mapping the three scores to a segment name. -/
def assign_segment (r f m : ℕ) : String :=
  if 4 ≤ r ∧ 4 ≤ f ∧ 4 ≤ m then "Champions"
  else if 3 ≤ r ∧ 3 ≤ f ∧ 3 ≤ m then "Loyal"
  else if r ≤ 2 ∧ (4 ≤ f ∨ 4 ≤ m) then "At Risk"
  else if 4 ≤ r ∧ f ≤ 2 ∧ m ≤ 2 then "New"
  else "Others"

/-- First-match-wins evaluation of an ordered (predicate, result) table. -/
def firstMatch {α : Type} (rules : List ((α → Bool) × String)) (x : α) : Option String :=
  match rules with
  | [] => none
  | (p, o) :: rest => if p x then some o else firstMatch rest x

/-- The spec's ordered segment decision table (§4.1 of the spec),
evaluated first-match-wins. -/
def segmentRules : List ((ℕ × ℕ × ℕ → Bool) × String) :=
  [(fun p => decide (4 ≤ p.1) && decide (4 ≤ p.2.1) && decide (4 ≤ p.2.2), "Champions"),
   (fun p => decide (3 ≤ p.1) && decide (3 ≤ p.2.1) && decide (3 ≤ p.2.2), "Loyal"),
   (fun p => decide (p.1 ≤ 2) && (decide (4 ≤ p.2.1) || decide (4 ≤ p.2.2)), "At Risk"),
   (fun p => decide (4 ≤ p.1) && decide (p.2.1 ≤ 2) && decide (p.2.2 ≤ 2), "New"),
   (fun _ => true, "Others")]

/-- Evaluate the spec's segment decision table. -/
def evalSegmentRules (p : ℕ × ℕ × ℕ) : String :=
  (firstMatch segmentRules p).getD "Others"

/-! ### Pandas numeric primitives: sort, quantile, median, rank, qcut -/

/-- Ascending sort of a rational column. -/
def sortQ (l : List ℚ) : List ℚ := l.insertionSort (· ≤ ·)

/-- Linear-interpolation quantile of an already sorted column (numpy/pandas
`interpolation='linear'`): position `q*(n-1)`, interpolate between the two
neighbouring order statistics. -/
def quantileSorted (v : List ℚ) (q : ℚ) : ℚ :=
  let n := v.length
  let pos := q * ((n : ℚ) - 1)
  let i := Int.toNat ⌊pos⌋
  let γ := pos - (i : ℚ)
  let lo := v.getD i 0
  let hi := v.getD (i + 1) lo
  lo + γ * (hi - lo)

/-- `Series.quantile(q)` on an unsorted column. -/
def quantileOf (l : List ℚ) (q : ℚ) : ℚ := quantileSorted (sortQ l) q

/-- `Series.median()`: middle order statistic, or the mean of the two
middle ones for an even-length column. -/
def medianOf (l : List ℚ) : ℚ :=
  let s := sortQ l
  let n := s.length
  if n % 2 = 1 then s.getD (n / 2) 0
  else (s.getD (n / 2 - 1) 0 + s.getD (n / 2) 0) / 2

/-- The strict order used by `rank(method='first')`: compare by value,
ties broken by position of appearance. -/
def keyLt (vals : List ℚ) (a b : ℕ) : Prop :=
  vals.getD a 0 < vals.getD b 0 ∨ (vals.getD a 0 = vals.getD b 0 ∧ a < b)

instance (vals : List ℚ) (a b : ℕ) : Decidable (keyLt vals a b) := by
  unfold keyLt; exact inferInstance

/-- `Series.rank(method='first')`: 1-based rank, ties broken by order of
appearance. -/
def rankFirst (vals : List ℚ) : List ℚ :=
  (List.range vals.length).map fun i =>
    (((1 + ((Finset.range vals.length).filter fun j => keyLt vals j i).card : ℕ) : ℕ) : ℚ)

/-- Index of the first element satisfying `p` (used for interval lookup of
a value among ascending bin edges). -/
def findIdxO (p : ℚ → Bool) : List ℚ → Option ℕ
  | [] => none
  | a :: l => if p a then some 0 else (findIdxO p l).map (· + 1)

/-- Sequence a list of options: `none` as soon as one entry is `none`. -/
def seqO {α : Type} : List (Option α) → Option (List α)
  | [] => some []
  | none :: _ => none
  | some a :: rest => (seqO rest).map (a :: ·)

/-- `pd.qcut(vals, 5, labels=labels)`: compute the six quintile edges of
the column; fail (`ValueError`, modelled as `none`) when the edges are not
all distinct; otherwise label each value by the ascending bin it falls in. -/
def qcut (vals : List ℚ) (labels : List ℕ) : Option (List ℕ) :=
  let edges := (List.range 6).map fun k : ℕ => quantileOf vals ((k : ℚ) / 5)
  if edges.Nodup then
    seqO (vals.map fun x =>
      (findIdxO (fun e => decide (x ≤ e)) edges.tail).map fun i => labels.getD i 0)
  else none

/-! ### RFM engine (`calculate_rfm`, `add_tenure_features`) -/

/-- `try: qcut(raw) except ValueError: qcut(rank(method='first'))` — the
scoring of `Recency` and `Monetary` in `calculate_rfm`. -/
def scoreWithRankFallback (vals : List ℚ) (labels : List ℕ) : Option (List ℕ) :=
  match qcut vals labels with
  | some r => some r
  | none => qcut (rankFirst vals) labels

/-- The `Frequency` scoring of `calculate_rfm`: both the `try` and the
`except` branch bin the first-seen rank of the column. -/
def scoreRankOnly (vals : List ℚ) (labels : List ℕ) : Option (List ℕ) :=
  match qcut (rankFirst vals) labels with
  | some r => some r
  | none => qcut (rankFirst vals) labels

/-- The distinct customer ids, as a pandas groupby produces them
(sorted unique keys). -/
def distinctCustomers (tx : List Tx) : List ℕ :=
  ((tx.map (·.cust)).dedup).insertionSort (· ≤ ·)

/-- The table produced by `calculate_rfm`: one entry per distinct
customer in every column. -/
structure RfmTable where
  custs : List ℕ
  recency : List ℚ
  frequency : List ℚ
  monetary : List ℚ
  rScore : List ℕ
  fScore : List ℕ
  mScore : List ℕ
  rfmScore : List String
  segment : List String
deriving DecidableEq, Repr

/-- `calculate_rfm` (src/features/build_features.py): groupby-aggregate
Recency/Frequency/Monetary, quintile-score each with the qcut fallback
strategy, concatenate the score string and assign segments.  `none`
models the uncaught `ValueError` when even the fallback binning fails.
The reference date defaults to the maximum transaction date plus one day. -/
def calculate_rfm (tx : List Tx) (refOpt : Option ℤ) : Option RfmTable :=
  let ref := refOpt.getD (maxDate tx + 1)
  let custs := distinctCustomers tx
  let recs : List ℚ := custs.map fun c => ((ref - lastOf (custDates tx c) : ℤ) : ℚ)
  let freqs : List ℚ := custs.map fun c => ((tx.filter (fun t => t.cust = c)).length : ℚ)
  let mons : List ℚ := custs.map fun c => ((tx.filter (fun t => t.cust = c)).map (·.amount)).sum
  match scoreWithRankFallback recs [5, 4, 3, 2, 1],
        scoreRankOnly freqs [1, 2, 3, 4, 5],
        scoreWithRankFallback mons [1, 2, 3, 4, 5] with
  | some rS, some fS, some mS =>
      some { custs := custs, recency := recs, frequency := freqs, monetary := mons,
             rScore := rS, fScore := fS, mScore := mS,
             rfmScore := (rS.zip (fS.zip mS)).map fun p =>
               toString p.1 ++ toString p.2.1 ++ toString p.2.2,
             segment := (rS.zip (fS.zip mS)).map fun p =>
               assign_segment p.1 p.2.1 p.2.2 }
  | _, _, _ => none

/-- One row of the `add_tenure_features` output. -/
structure TenureRow where
  firstPurchase : ℤ
  lastPurchase : ℤ
  tenureDays : ℤ
  recencyDays : ℤ
deriving DecidableEq

/-- `add_tenure_features` (src/features/build_features.py): per customer
min/max purchase date, tenure and recency in days.  The reference date
defaults to the maximum transaction date (no +1 here). -/
def add_tenure_features (tx : List Tx) (refOpt : Option ℤ) : List (ℕ × TenureRow) :=
  let ref := refOpt.getD (maxDate tx)
  (distinctCustomers tx).map fun c =>
    let ds := custDates tx c
    (c, { firstPurchase := firstOf ds, lastPurchase := lastOf ds,
          tenureDays := ref - firstOf ds, recencyDays := ref - lastOf ds })

/-! ### Offer recommender (`src/business/offer_recommender.py`) -/

/-- One row of the scored customer table consumed by the recommender.
`ChurnProb` and `PredictedLTV_Next6Months` may be absent (`row.get`
defaults them to 0). -/
structure CustRow where
  customerID : ℕ
  segment : String
  churnProb : Option ℚ
  predictedLtv : Option ℚ
  historicalLtv : ℚ
deriving DecidableEq

/-- `offer_logic` (the row-wise closure of `generate_offer_recommendations`):
nested if/elif on segment, churn probability and historical LTV against
the two dataset-wide thresholds. -/
def offer_logic (highLtvThreshold medianLtv : ℚ) (row : CustRow) : String :=
  let churnProb := row.churnProb.getD 0
  let _predictedLtv := row.predictedLtv.getD 0
  let historicalLtv := row.historicalLtv
  if row.segment = "Champions" then
    if highLtvThreshold < historicalLtv then
      "VIP exclusive event invitation + early access to new products"
    else "Loyalty points multiplier (2x for next month)"
  else if row.segment = "Loyal" then
    if (1 : ℚ) / 2 < churnProb then "Personalized \x27we miss you\x27 discount (15% off)"
    else "Referral bonus: give $10, get $10"
  else if row.segment = "At Risk" then
    if medianLtv < historicalLtv then
      "High-value at-risk: 25% off next purchase + free shipping"
    else "Re-engagement email with 20% off"
  else if row.segment = "New" then "Welcome series: 10% off second purchase"
  else
    if (7 : ℚ) / 10 < churnProb then "We miss you! 15% off your next order"
    else if medianLtv < historicalLtv then "Flash sale preview (24h early access)"
    else "Standard monthly newsletter with personalized recommendations"

/-- `generate_offer_recommendations`: compute the 90th percentile and the
median of `HistoricalLTV` once, then attach one offer per row. -/
def generate_offer_recommendations (rows : List CustRow) : List (CustRow × String) :=
  let highLtvThreshold := quantileOf (rows.map (·.historicalLtv)) (9 / 10)
  let medianLtv := medianOf (rows.map (·.historicalLtv))
  rows.map fun r => (r, offer_logic highLtvThreshold medianLtv r)

/-- The input record of the spec's §4.6 decision table. -/
structure OfferInput where
  segment : String
  churnProb : ℚ
  predictedLtv : ℚ
  historicalLtv : ℚ
  p90 : ℚ
  med : ℚ

/-- The spec's §4.6 offer decision table, in priority order. -/
def specOfferRules : List ((OfferInput → Bool) × String) :=
  [(fun i => decide (i.segment = "Champions") && decide (i.p90 < i.historicalLtv),
     "VIP exclusive event invitation + early access to new products"),
   (fun i => decide (i.segment = "Champions"),
     "Loyalty points multiplier (2x for next month)"),
   (fun i => decide (i.segment = "Loyal") && decide ((1 : ℚ) / 2 < i.churnProb),
     "Personalized \x27we miss you\x27 discount (15% off)"),
   (fun i => decide (i.segment = "Loyal"),
     "Referral bonus: give $10, get $10"),
   (fun i => decide (i.segment = "At Risk") && decide (i.med < i.historicalLtv),
     "High-value at-risk: 25% off next purchase + free shipping"),
   (fun i => decide (i.segment = "At Risk"),
     "Re-engagement email with 20% off"),
   (fun i => decide (i.segment = "New"),
     "Welcome series: 10% off second purchase"),
   (fun i => decide ((7 : ℚ) / 10 < i.churnProb),
     "We miss you! 15% off your next order"),
   (fun i => decide (i.med < i.historicalLtv),
     "Flash sale preview (24h early access)"),
   (fun _ => true,
     "Standard monthly newsletter with personalized recommendations")]

/-- Evaluate the spec's offer decision table, first match wins. -/
def evalOfferRules (i : OfferInput) : String :=
  (firstMatch specOfferRules i).getD ""

/-- Mean of a column that may contain missing values (pandas `mean`
skips `NaN`; junk 0 for an all-missing column). -/
def meanOpt (l : List (Option ℚ)) : ℚ :=
  let present := l.filterMap id
  if present.length = 0 then 0 else present.sum / (present.length : ℚ)

/-- The per-offer unit cost lookup (`cost_map`), `fillna(5)` for unknown
offers. -/
def costMap (o : String) : ℚ :=
  if o = "VIP exclusive event invitation + early access to new products" then 50
  else if o = "Loyalty points multiplier (2x for next month)" then 5
  else if o = "Personalized \x27we miss you\x27 discount (15% off)" then 8
  else if o = "Referral bonus: give $10, get $10" then 10
  else if o = "High-value at-risk: 25% off next purchase + free shipping" then 20
  else if o = "Re-engagement email with 20% off" then 6
  else if o = "Welcome series: 10% off second purchase" then 4
  else if o = "We miss you! 15% off your next order" then 7
  else if o = "Flash sale preview (24h early access)" then 2
  else if o = "Standard monthly newsletter with personalized recommendations" then 1
  else 5

/-- One row of the campaign summary table. -/
structure SummaryRow where
  offer : String
  customerCount : ℕ
  avgLtv : ℚ
  totalHistoricalLtv : ℚ
  estimatedCostPerCustomer : ℚ
  totalCost : ℚ
  expectedRevenue : ℚ
deriving DecidableEq

/-- `create_marketing_campaign_summary`: group the scored customers by
recommended offer (sorted unique keys, as pandas groupby), count
customers, average predicted LTV, sum historical LTV, and attach
cost/revenue estimates. -/
def create_marketing_campaign_summary (rows : List (CustRow × String)) :
    List SummaryRow :=
  let offers := ((rows.map (·.2)).dedup).insertionSort (· ≤ ·)
  offers.map fun o =>
    let grp := rows.filter fun r => r.2 = o
    let cnt := grp.length
    let avg := meanOpt (grp.map (·.1.predictedLtv))
    let cost := costMap o
    { offer := o, customerCount := cnt, avgLtv := avg,
      totalHistoricalLtv := (grp.map (·.1.historicalLtv)).sum,
      estimatedCostPerCustomer := cost,
      totalCost := (cnt : ℚ) * cost,
      expectedRevenue := (cnt : ℚ) * avg * (1 / 10) }

/-- A dataframe cell view for the frame-effect model: the customer rows
plus the (initially absent) `RecommendedOffer` column. -/
structure DFrame where
  rows : List CustRow
  offerCol : Option (List String)
deriving DecidableEq

/-- Heap model of the body of `generate_offer_recommendations`: the
caller's dataframe lives in heap cell 0; `customers = customers_df.copy()`
allocates cell 1; the column assignment mutates only cell 1, which is
returned. -/
def generate_offer_recommendations_heap (rows : List CustRow) : List DFrame × ℕ :=
  let h0 : List DFrame := [{ rows := rows, offerCol := none }]
  let customersDf := h0.getD 0 { rows := [], offerCol := none }
  let h1 := h0 ++ [customersDf]
  let t := h1.getD 1 { rows := [], offerCol := none }
  let offers := (generate_offer_recommendations t.rows).map (·.2)
  let h2 := h1.set 1 { t with offerCol := some offers }
  (h2, 1)

/-! ### Model training (`train_churn_model`, `train_predictive_ltv_model`,
`prepare_features_and_labels`, `scale_pos_weight`) -/

/-- The observable work steps of a training run, in execution order. -/
inductive TrainEvent where
  | split : TrainEvent
  | gridSearch : TrainEvent
  | fit : TrainEvent
  | evaluate : TrainEvent
deriving DecidableEq

/-- The xgboost class-imbalance weight `(len(y) - sum(y)) / sum(y)`
(src/models/churn_model.py line 108); `none` models the division by zero
reached when the label vector has no positive label. -/
def scale_pos_weight (y : List ℕ) : Option ℚ :=
  if y.sum = 0 then none
  else some (((y.length : ℚ) - (y.sum : ℚ)) / (y.sum : ℚ))

/-- Success condition of `train_test_split(X, y, test_size=0.3,
stratify=y)` at churn_model.py line 89 (exact-arithmetic idealization of
`ceil(0.3·n)` as `(3n+9)/10`): `X` and `y` must have the same number of
rows, neither the test nor the train part may be empty, every class of
the stratification labels must have at least two members, and both parts
must have at least as many rows as there are classes.  When it fails,
the real call raises `ValueError` before the selector dispatch. -/
def train_test_split_churn_ok (X : List (List ℚ)) (y : List ℕ) : Prop :=
  X.length = y.length ∧
  1 ≤ (3 * y.length + 9) / 10 ∧
  1 ≤ y.length - (3 * y.length + 9) / 10 ∧
  (∀ c ∈ y, 2 ≤ y.count c) ∧
  y.dedup.length ≤ (3 * y.length + 9) / 10 ∧
  y.dedup.length ≤ y.length - (3 * y.length + 9) / 10

instance (X : List (List ℚ)) (y : List ℕ) : Decidable (train_test_split_churn_ok X y) := by
  unfold train_test_split_churn_ok; exact inferInstance

/-- Success condition of the unstratified `train_test_split(X, y_ltv,
test_size=0.2)` at ltv_model.py line 59 (default `test_size`;
`ceil(0.2·n)` as `(n+4)/5`): consistent row counts and neither part
empty. -/
def train_test_split_ltv_ok (X : List (List ℚ)) (y : List ℚ) : Prop :=
  X.length = y.length ∧
  1 ≤ (y.length + 4) / 5 ∧
  1 ≤ y.length - (y.length + 4) / 5

instance (X : List (List ℚ)) (y : List ℚ) : Decidable (train_test_split_ltv_ok X y) := by
  unfold train_test_split_ltv_ok; exact inferInstance

/-- `train_churn_model` control flow: the train/test split runs first and
may itself raise (inconsistent sample counts, empty train/test part,
under-populated stratification classes); only when it succeeds (event
`split` recorded) does the selector dispatch run, which fits (optionally
grid-searching) and evaluates, or raises `ValueError` for an unknown
selector. -/
def train_churn_model (X : List (List ℚ)) (y : List ℕ) (modelType : String)
    (tuneHyperparams : Bool) : List TrainEvent × Except String Unit :=
  if train_test_split_churn_ok X y then
    if modelType = "random_forest" then
      ([TrainEvent.split] ++ (if tuneHyperparams then [TrainEvent.gridSearch] else [TrainEvent.fit])
          ++ [TrainEvent.evaluate], Except.ok ())
    else if modelType = "xgboost" then
      match scale_pos_weight y with
      | none => ([TrainEvent.split], Except.error "ZeroDivisionError")
      | some _ =>
          ([TrainEvent.split] ++ (if tuneHyperparams then [TrainEvent.gridSearch] else [TrainEvent.fit])
              ++ [TrainEvent.evaluate], Except.ok ())
    else ([TrainEvent.split], Except.error "model_type must be \x27random_forest\x27 or \x27xgboost\x27")
  else ([], Except.error "ValueError: train_test_split")

/-- `train_predictive_ltv_model` control flow: the (fallible) split runs
first; only on success does the selector dispatch run, then fit and
evaluate, or raise `ValueError` for an unknown selector. -/
def train_predictive_ltv_model (X : List (List ℚ)) (y : List ℚ)
    (modelType : String) : List TrainEvent × Except String Unit :=
  if train_test_split_ltv_ok X y then
    if modelType = "linear" then
      ([TrainEvent.split, TrainEvent.fit, TrainEvent.evaluate], Except.ok ())
    else if modelType = "random_forest" then
      ([TrainEvent.split, TrainEvent.fit, TrainEvent.evaluate], Except.ok ())
    else ([TrainEvent.split], Except.error "model_type must be \x27linear\x27 or \x27random_forest\x27")
  else ([], Except.error "ValueError: train_test_split")

/-- Median of a feature column that may contain missing values, as
`X.median()` computes it: `NaN`s are skipped, and the median of an
all-missing column is itself missing. -/
def colMedian (col : List (Option ℚ)) : Option ℚ :=
  let present := col.filterMap id
  if present.length = 0 then none else some (medianOf present)

/-- `X.fillna(X.median())` on one column: present cells unchanged,
missing cells replaced by the column median — which is itself missing
for an all-missing column, so those cells stay missing. -/
def fillColumn (col : List (Option ℚ)) : List (Option ℚ) :=
  col.map fun x =>
    match x with
    | some v => some v
    | none => colMedian col

/-- `prepare_features_and_labels` (src/models/churn_model.py): copy the
feature columns and labels; when any cell is missing, fill every column
with its median (with a warning).  No error path exists. -/
def prepare_features_and_labels (X : List (List (Option ℚ))) (y : List ℕ) :
    List (List (Option ℚ)) × List ℕ :=
  if X.any fun col => col.any (·.isNone) then (X.map fillColumn, y) else (X, y)

/-! ### Theorems -/

/-- C2: Segment assignment is a total deterministic function of the three
scores, equal to the spec's ordered decision table evaluated
first-match-wins; in particular R=F=M=5 is assigned Champions even though
it also satisfies the Loyal condition. -/
theorem assign_segment_matches_spec_table (r f m : ℕ) :
    assign_segment r f m = evalSegmentRules (r, f, m) ∧
    assign_segment 5 5 5 = "Champions" ∧
    (3 ≤ (5 : ℕ) ∧ 3 ≤ (5 : ℕ) ∧ 3 ≤ (5 : ℕ)) := by
  refine ⟨?_, rfl, by omega⟩
  simp only [assign_segment, evalSegmentRules, firstMatch, segmentRules,
    Bool.and_eq_true, Bool.or_eq_true, decide_eq_true_eq]
  split_ifs <;> first | rfl | (exfalso; omega)

/-- C1: `define_churn_labels` returns exactly one binary label per entry
of the feature index, label 1 iff days-since-last-purchase exceeds the
window, and a customer absent from the transactions gets the sentinel
`w+1` and is therefore labeled 1. -/
theorem churn_labels_spec (tx : List Tx) (featIdx : List ℕ) (w : ℕ)
    (refOpt : Option ℤ) :
    (define_churn_labels tx featIdx w refOpt).length = featIdx.length ∧
    (∀ p ∈ define_churn_labels tx featIdx w refOpt, p.2 = 1 ∨ p.2 = 0) ∧
    (∀ i, i < featIdx.length →
      (define_churn_labels tx featIdx w refOpt).getD i (0, 0) =
        (featIdx.getD i 0,
          if (w : ℤ) < daysSinceLast tx (refOpt.getD (maxDate tx)) w (featIdx.getD i 0)
          then 1 else 0)) ∧
    (∀ c ∈ featIdx, lastPurchase? tx c = none →
      daysSinceLast tx (refOpt.getD (maxDate tx)) w c = (w : ℤ) + 1 ∧
      (c, 1) ∈ define_churn_labels tx featIdx w refOpt) := by
  refine ⟨by simp [define_churn_labels], ?_, ?_, ?_⟩
  · intro p hp
    simp only [define_churn_labels, List.mem_map] at hp
    obtain ⟨c, _, rfl⟩ := hp
    split_ifs <;> simp
  · intro i hi
    simp only [define_churn_labels, List.getD_eq_getElem?_getD, List.getElem?_map]
    rw [List.getElem?_eq_getElem hi]
    simp [List.getD_eq_getElem?_getD, List.getElem?_eq_getElem hi]
  · intro c hc hnone
    refine ⟨by simp [daysSinceLast, hnone], ?_⟩
    have h1 : ((c, if (w : ℤ) < daysSinceLast tx (refOpt.getD (maxDate tx)) w c
        then 1 else 0) : ℕ × ℕ) ∈ define_churn_labels tx featIdx w refOpt := by
      simp only [define_churn_labels]
      exact List.mem_map_of_mem _ hc
    have h2 : (if (w : ℤ) < daysSinceLast tx (refOpt.getD (maxDate tx)) w c
        then 1 else 0) = 1 := by
      rw [if_pos]
      rw [show daysSinceLast tx (refOpt.getD (maxDate tx)) w c = (w : ℤ) + 1 from
        by simp [daysSinceLast, hnone]]
      omega
    rwa [h2] at h1

/-- C1 witness: a two-entry feature index over a single-customer
transaction table; the absent customer 2 gets the sentinel 91 and
label 1. -/
theorem churn_labels_spec_witness :
    (define_churn_labels [⟨1, 0, 10⟩] [1, 2] 90 none).getD 1 (0, 0) =
      (([1, 2] : List ℕ).getD 1 0,
        if (90 : ℤ) < daysSinceLast [⟨1, 0, 10⟩]
            ((none : Option ℤ).getD (maxDate [⟨1, 0, 10⟩])) 90 (([1, 2] : List ℕ).getD 1 0)
        then 1 else 0) ∧
    daysSinceLast [⟨1, 0, 10⟩] ((none : Option ℤ).getD (maxDate [⟨1, 0, 10⟩])) 90 2 =
      (90 : ℤ) + 1 ∧
    ((2 : ℕ), (1 : ℕ)) ∈ define_churn_labels [⟨1, 0, 10⟩] [1, 2] 90 none := by
  refine ⟨(churn_labels_spec [⟨1, 0, 10⟩] [1, 2] 90 none).2.2.1 1 (by decide), ?_, ?_⟩
  · exact ((churn_labels_spec [⟨1, 0, 10⟩] [1, 2] 90 none).2.2.2 2 (by decide) (by decide)).1
  · exact ((churn_labels_spec [⟨1, 0, 10⟩] [1, 2] 90 none).2.2.2 2 (by decide) (by decide)).2

/-- C5 counterexample: on an input where the train/test split itself
succeeds (four samples, both classes twice), an unknown selector is only
rejected after the split has already run — the event trace at the
rejection is `[split]`, not empty. -/
theorem train_unknown_selector_splits_first :
    train_churn_model [[1], [2], [3], [4]] [0, 0, 1, 1] "svm" false =
      ([TrainEvent.split],
        Except.error "model_type must be \x27random_forest\x27 or \x27xgboost\x27") ∧
    (train_churn_model [[1], [2], [3], [4]] [0, 0, 1, 1] "svm" false).1 ≠
      ([] : List TrainEvent) := by
  exact ⟨rfl, by decide⟩

/-- C5 (amended): for every input on which the train/test split itself
succeeds, an unknown model-type selector is fatal for both trainers,
rejected after the split has been performed but before any fitting
work (on inputs where the split fails, its own `ValueError` is raised
even earlier, so no fitting happens there either). -/
theorem train_unknown_selector_fatal :
    (∀ (X : List (List ℚ)) (y : List ℕ) (mt : String) (tune : Bool),
      mt ≠ "random_forest" → mt ≠ "xgboost" →
      train_test_split_churn_ok X y →
      train_churn_model X y mt tune =
        ([TrainEvent.split],
          Except.error "model_type must be \x27random_forest\x27 or \x27xgboost\x27")) ∧
    (∀ (X : List (List ℚ)) (y : List ℚ) (mt : String),
      mt ≠ "linear" → mt ≠ "random_forest" →
      train_test_split_ltv_ok X y →
      train_predictive_ltv_model X y mt =
        ([TrainEvent.split],
          Except.error "model_type must be \x27linear\x27 or \x27random_forest\x27")) := by
  constructor
  · intro X y mt tune h1 h2 hok
    rw [train_churn_model, if_pos hok]
    simp [h1, h2]
  · intro X y mt h1 h2 hok
    rw [train_predictive_ltv_model, if_pos hok]
    simp [h1, h2]

/-- C5 witness: concrete rejected selectors for both trainers, at inputs
where the split succeeds (4 stratified samples for churn, 5 samples for
LTV). -/
theorem train_unknown_selector_fatal_witness :
    train_churn_model [[1], [2], [3], [4]] [0, 0, 1, 1] "svm" true =
      ([TrainEvent.split],
        Except.error "model_type must be \x27random_forest\x27 or \x27xgboost\x27") ∧
    train_predictive_ltv_model [[1], [2], [3], [4], [5]] [10, 20, 30, 40, 50] "xgboost" =
      ([TrainEvent.split],
        Except.error "model_type must be \x27linear\x27 or \x27random_forest\x27") :=
  ⟨train_unknown_selector_fatal.1 [[1], [2], [3], [4]] [0, 0, 1, 1] "svm" true
      (by decide) (by decide) (by decide),
   train_unknown_selector_fatal.2 [[1], [2], [3], [4], [5]] [10, 20, 30, 40, 50] "xgboost"
      (by decide) (by decide) (by decide)⟩

/-- C9: the xgboost class-imbalance weight is `(len(y) - sum(y)) / sum(y)`,
well-defined exactly when the label vector has a positive label; with no
positive label the division by zero is reached, and whenever the prior
train/test split succeeds the xgboost branch of `train_churn_model`
errors out on it. -/
theorem scale_pos_weight_spec (y : List ℕ) :
    (0 < y.sum →
      scale_pos_weight y = some (((y.length : ℚ) - (y.sum : ℚ)) / (y.sum : ℚ))) ∧
    (y.sum = 0 →
      scale_pos_weight y = none ∧
      ∀ (X : List (List ℚ)) (tune : Bool), train_test_split_churn_ok X y →
        (train_churn_model X y "xgboost" tune).2 = Except.error "ZeroDivisionError") := by
  constructor
  · intro h
    have hne : y.sum ≠ 0 := by omega
    simp [scale_pos_weight, hne]
  · intro h
    have hx1 : ("xgboost" : String) ≠ "random_forest" := by decide
    refine ⟨by simp [scale_pos_weight, h], ?_⟩
    intro X tune hok
    rw [train_churn_model, if_pos hok]
    simp [scale_pos_weight, h, hx1]

/-- C9 witness: `[1,0,1]` gives weight `(3-2)/2`; two all-negative labels
with a matching two-row feature matrix pass the stratified split and
reach the division-by-zero branch. -/
theorem scale_pos_weight_spec_witness :
    scale_pos_weight [1, 0, 1] =
      some (((([1, 0, 1] : List ℕ).length : ℚ) - (([1, 0, 1] : List ℕ).sum : ℚ)) /
        (([1, 0, 1] : List ℕ).sum : ℚ)) ∧
    scale_pos_weight [0, 0] = none ∧
    (train_churn_model [[1], [2]] [0, 0] "xgboost" false).2 =
      Except.error "ZeroDivisionError" :=
  ⟨(scale_pos_weight_spec [1, 0, 1]).1 (by decide),
   ((scale_pos_weight_spec [0, 0]).2 (by decide)).1,
   ((scale_pos_weight_spec [0, 0]).2 (by decide)).2 [[1], [2]] false (by decide)⟩

/-- C10: `generate_offer_recommendations` leaves the caller's dataframe
(heap cell 0) unchanged and returns a fresh copy equal to the input rows
with exactly the one added `RecommendedOffer` column, one offer per row. -/
theorem generate_offers_frame_effect (rows : List CustRow) :
    (generate_offer_recommendations_heap rows).1.getD 0 { rows := [], offerCol := none } =
      { rows := rows, offerCol := none } ∧
    (generate_offer_recommendations_heap rows).1.getD
        (generate_offer_recommendations_heap rows).2 { rows := [], offerCol := none } =
      { rows := rows,
        offerCol := some ((generate_offer_recommendations rows).map (·.2)) } ∧
    ((generate_offer_recommendations rows).map (·.2)).length = rows.length ∧
    (generate_offer_recommendations rows).map (·.1) = rows := by
  refine ⟨rfl, rfl, by simp [generate_offer_recommendations], ?_⟩
  simp [generate_offer_recommendations, Function.comp_def]

/-- C6 counterexample: a feature column whose values are all missing is
returned unchanged by `prepare_features_and_labels` — still full of
missing values, with no error raised. -/
theorem prepare_all_missing_column_passed_through :
    prepare_features_and_labels [[none, none]] [0, 1] = ([[none, none]], [0, 1]) ∧
    (none : Option ℚ) ∈ (prepare_features_and_labels [[none, none]] [0, 1]).1.getD 0 [] := by
  exact ⟨by decide, by decide⟩

/-- Filling a column with at least one present value replaces each
missing cell by the column's median and leaves no missing cell. -/
theorem fillColumn_of_present (col : List (Option ℚ)) (v : ℚ) (hv : some v ∈ col) :
    fillColumn col = col.map (fun x => match x with
      | some w => some w
      | none => some (medianOf (col.filterMap id))) ∧
    ∀ x ∈ fillColumn col, x ≠ none := by
  have hpres : v ∈ col.filterMap id := List.mem_filterMap.mpr ⟨some v, hv, rfl⟩
  have hlen : (col.filterMap id).length ≠ 0 := by
    intro h0
    rw [List.length_eq_zero] at h0
    rw [h0] at hpres
    exact List.not_mem_nil v hpres
  have hmed : colMedian col = some (medianOf (col.filterMap id)) := by
    simp [colMedian, hlen]
  constructor
  · refine List.map_congr_left ?_
    intro a _
    cases a with
    | some w => rfl
    | none => exact hmed
  · intro x hx
    unfold fillColumn at hx
    rw [List.mem_map] at hx
    obtain ⟨a, _, rfl⟩ := hx
    cases a with
    | some w => simp
    | none => simp [hmed]

/-- Filling an entirely-missing column is the identity: the missing
values are passed through. -/
theorem fillColumn_of_all_none (col : List (Option ℚ))
    (hall : ∀ x ∈ col, x = (none : Option ℚ)) : fillColumn col = col := by
  have hmed : colMedian col = none := by
    have hnil : col.filterMap id = [] := by
      rw [List.filterMap_eq_nil_iff]
      intro a ha
      rw [hall a ha]
      rfl
    simp [colMedian, hnil]
  unfold fillColumn
  conv_rhs => rw [← List.map_id col]
  refine List.map_congr_left ?_
  intro a ha
  cases ha' : a with
  | some w => rfl
  | none => exact hmed

/-- C6 (amended): labels are passed through; a column with at least one
present value has every missing cell filled with that column's median
(and ends with no missing cell); an entirely-missing column is passed
through unchanged, with no error. -/
theorem prepare_features_median_imputation (X : List (List (Option ℚ))) (y : List ℕ)
    (i : ℕ) (hi : i < X.length) :
    (prepare_features_and_labels X y).2 = y ∧
    (prepare_features_and_labels X y).1.length = X.length ∧
    ((∃ v : ℚ, some v ∈ X.getD i []) →
      (prepare_features_and_labels X y).1.getD i [] =
        (X.getD i []).map (fun x => match x with
          | some v => some v
          | none => some (medianOf ((X.getD i []).filterMap id))) ∧
      ∀ x ∈ (prepare_features_and_labels X y).1.getD i [], x ≠ none) ∧
    ((∀ x ∈ X.getD i [], x = (none : Option ℚ)) →
      (prepare_features_and_labels X y).1.getD i [] = X.getD i []) := by
  have hgd : X.getD i [] = X[i] := List.getD_eq_getElem X [] hi
  unfold prepare_features_and_labels
  by_cases hc : (X.any fun col => col.any (·.isNone)) = true
  case pos =>
    rw [if_pos hc]
    have hmapgd : (X.map fillColumn).getD i [] = fillColumn (X.getD i []) := by
      rw [List.getD_eq_getElem (X.map fillColumn) [] (by simpa using hi),
        List.getElem_map, hgd]
    refine ⟨rfl, by simp, ?_, ?_⟩
    · rintro ⟨v, hv⟩
      rw [hmapgd]
      exact fillColumn_of_present (X.getD i []) v hv
    · intro hall
      rw [hmapgd]
      exact fillColumn_of_all_none (X.getD i []) hall
  case neg =>
    rw [if_neg hc]
    have hnomiss : ∀ x ∈ X.getD i [], x ≠ (none : Option ℚ) := by
      intro x hx hxn
      have hmem : X.getD i [] ∈ X := by rw [hgd]; exact List.getElem_mem hi
      refine hc ?_
      rw [List.any_eq_true]
      exact ⟨X.getD i [], hmem, by
        rw [List.any_eq_true]
        exact ⟨x, hx, by rw [hxn]; rfl⟩⟩
    refine ⟨rfl, rfl, ?_, fun _ => rfl⟩
    intro _
    constructor
    · conv_lhs => rw [← List.map_id (X.getD i [])]
      refine List.map_congr_left ?_
      intro a ha
      cases a with
      | some w => rfl
      | none => exact absurd rfl (hnomiss none ha)
    · exact hnomiss

/-- C6 witness: a column `[some 1, none, some 3]` is median-imputed; the
labels come back unchanged. -/
theorem prepare_features_median_imputation_witness :
    (prepare_features_and_labels [[some 1, none, some 3]] [0]).2 = [0] ∧
    (prepare_features_and_labels [[some 1, none, some 3]] [0]).1.getD 0 [] =
      (([[some 1, none, some 3]] : List (List (Option ℚ))).getD 0 []).map
        (fun x => match x with
          | some v => some v
          | none => some (medianOf ((([[some 1, none, some 3]] :
              List (List (Option ℚ))).getD 0 []).filterMap id))) := by
  refine ⟨(prepare_features_median_imputation [[some 1, none, some 3]] [0] 0 (by decide)).1, ?_⟩
  exact ((prepare_features_median_imputation [[some 1, none, some 3]] [0] 0
    (by decide)).2.2.1 ⟨1, by decide⟩).1

/-- C4: the offer is a pure function of segment, churn probability,
predicted LTV and historical LTV plus the two dataset-wide thresholds
(computed once per invocation), equal to the spec's ordered decision
table; absent probabilities default to 0; and every Loyal customer with
churn probability 0.2 gets the referral-bonus offer. -/
theorem offer_recommendations_spec :
    (∀ (p90 med : ℚ) (r : CustRow),
      offer_logic p90 med r =
        evalOfferRules ⟨r.segment, r.churnProb.getD 0, r.predictedLtv.getD 0,
          r.historicalLtv, p90, med⟩) ∧
    (∀ rows : List CustRow,
      generate_offer_recommendations rows =
        rows.map fun r =>
          (r, offer_logic (quantileOf (rows.map (·.historicalLtv)) (9 / 10))
                (medianOf (rows.map (·.historicalLtv))) r)) ∧
    (∀ (rows : List CustRow) (r : CustRow), r ∈ rows → r.segment = "Loyal" →
      r.churnProb = some (1 / 5) →
      (r, "Referral bonus: give $10, get $10") ∈ generate_offer_recommendations rows) := by
  have hlogic : ∀ (p90 med : ℚ) (r : CustRow),
      offer_logic p90 med r =
        evalOfferRules ⟨r.segment, r.churnProb.getD 0, r.predictedLtv.getD 0,
          r.historicalLtv, p90, med⟩ := by
    intro p90 med r
    simp only [offer_logic, evalOfferRules, firstMatch, specOfferRules,
      Bool.and_eq_true, decide_eq_true_eq]
    split_ifs <;> first | rfl | tauto
  refine ⟨hlogic, fun rows => rfl, ?_⟩
  intro rows r hr hseg hcp
  have : offer_logic (quantileOf (rows.map (·.historicalLtv)) (9 / 10))
      (medianOf (rows.map (·.historicalLtv))) r = "Referral bonus: give $10, get $10" := by
    have h1 : ("Loyal" : String) ≠ "Champions" := by decide
    simp [offer_logic, hseg, hcp, h1]
    norm_num
  exact List.mem_map.mpr ⟨r, hr, by rw [this]⟩

/-- C4 witness: a singleton Loyal customer with churn probability 0.2
receives the referral-bonus offer. -/
theorem offer_recommendations_spec_witness :
    ((⟨7, "Loyal", some (1 / 5), none, 100⟩ : CustRow),
      "Referral bonus: give $10, get $10") ∈
      generate_offer_recommendations [⟨7, "Loyal", some (1 / 5), none, 100⟩] :=
  offer_recommendations_spec.2.2 [⟨7, "Loyal", some (1 / 5), none, 100⟩]
    ⟨7, "Loyal", some (1 / 5), none, 100⟩ (List.mem_cons_self _ _) rfl rfl

/-- Partition counting: summing the sizes of the per-key filter groups
over a duplicate-free key list that covers every row gives back the
total number of rows. -/
theorem sum_filter_lengths {α κ : Type} [DecidableEq κ] (key : α → κ) :
    ∀ (ks : List κ) (rows : List α), ks.Nodup → (∀ r ∈ rows, key r ∈ ks) →
      (ks.map fun k => (rows.filter fun r => decide (key r = k)).length).sum = rows.length := by
  intro ks
  induction ks with
  | nil =>
    intro rows _ hcov
    have : rows = [] := by
      cases rows with
      | nil => rfl
      | cons a l => exact absurd (hcov a (List.mem_cons_self a l)) (List.not_mem_nil _)
    simp [this]
  | cons k ks ih =>
    intro rows hnd hcov
    have hk_notin : k ∉ ks := (List.nodup_cons.mp hnd).1
    have hnd' : ks.Nodup := (List.nodup_cons.mp hnd).2
    have hsplit : rows.length =
        (rows.filter fun r => decide (key r = k)).length +
        (rows.filter fun r => !decide (key r = k)).length := by
      exact List.length_eq_length_filter_add (fun r => decide (key r = k))
    have hcov' : ∀ r ∈ rows.filter fun r => !decide (key r = k), key r ∈ ks := by
      intro r hr
      rw [List.mem_filter] at hr
      have hne : key r ≠ k := by simpa using hr.2
      have := hcov r hr.1
      rw [List.mem_cons] at this
      exact this.resolve_left hne
    have hpt : ∀ k' ∈ ks,
        ((rows.filter fun r => !decide (key r = k)).filter
          fun r => decide (key r = k')).length =
        (rows.filter fun r => decide (key r = k')).length := by
      intro k' hk'
      have hkk' : k' ≠ k := fun h => hk_notin (h ▸ hk')
      rw [List.filter_filter]
      congr 1
      refine List.filter_congr ?_
      intro r _
      cases hcase : decide (key r = k') with
      | true =>
        have : key r = k' := of_decide_eq_true hcase
        have : decide (key r = k) = false := decide_eq_false (by rw [this]; exact hkk')
        simp [this]
      | false => simp
    calc ((k :: ks).map fun k => (rows.filter fun r => decide (key r = k)).length).sum
        = (rows.filter fun r => decide (key r = k)).length +
          (ks.map fun k' => (rows.filter fun r => decide (key r = k')).length).sum := by
          simp
      _ = (rows.filter fun r => decide (key r = k)).length +
          (ks.map fun k' => ((rows.filter fun r => !decide (key r = k)).filter
            fun r => decide (key r = k')).length).sum := by
          congr 1
          exact congrArg List.sum (List.map_congr_left fun k' hk' => (hpt k' hk').symm)
      _ = (rows.filter fun r => decide (key r = k)).length +
          (rows.filter fun r => !decide (key r = k)).length := by
          rw [ih (rows.filter fun r => !decide (key r = k)) hnd' hcov']
      _ = rows.length := hsplit.symm

/-- C8: in the campaign summary, the per-offer `CustomerCount`s sum to
the total number of scored customers. -/
theorem campaign_summary_count_total (rows : List (CustRow × String)) :
    ((create_marketing_campaign_summary rows).map (·.customerCount)).sum = rows.length := by
  unfold create_marketing_campaign_summary
  rw [List.map_map]
  have hkey : ((fun s : SummaryRow => s.customerCount) ∘ fun o =>
      ({ offer := o, customerCount := (rows.filter fun r => r.2 = o).length,
         avgLtv := meanOpt ((rows.filter fun r => r.2 = o).map (·.1.predictedLtv)),
         totalHistoricalLtv := ((rows.filter fun r => r.2 = o).map (·.1.historicalLtv)).sum,
         estimatedCostPerCustomer := costMap o,
         totalCost := ((rows.filter fun r => r.2 = o).length : ℚ) * costMap o,
         expectedRevenue := ((rows.filter fun r => r.2 = o).length : ℚ) *
           meanOpt ((rows.filter fun r => r.2 = o).map (·.1.predictedLtv)) * (1 / 10) }
        : SummaryRow)) =
      fun o => (rows.filter fun r => decide (r.2 = o)).length := rfl
  rw [hkey]
  refine sum_filter_lengths (fun r => r.2) _ rows ?_ ?_
  · exact ((List.perm_insertionSort _ _).nodup_iff).mpr (List.nodup_dedup _)
  · intro r hr
    rw [List.mem_insertionSort, List.mem_dedup]
    exact List.mem_map_of_mem _ hr

/-- C7: whenever `calculate_rfm` succeeds with an explicit reference
date, its `Recency` column coincides with the `RecencyDays` column of
`add_tenure_features` at the same reference date, customer by customer. -/
theorem rfm_tenure_recency_consistent (tx : List Tx) (ref : ℤ)
    (h : calculate_rfm tx (some ref) ≠ none) :
    ((calculate_rfm tx (some ref)).map (·.recency)).getD [] =
      (add_tenure_features tx (some ref)).map fun p => ((p.2.recencyDays : ℤ) : ℚ) := by
  obtain ⟨t, ht⟩ := Option.ne_none_iff_exists'.mp h
  rw [ht]
  have hrec : t.recency = (distinctCustomers tx).map
      fun c => ((ref - lastOf (custDates tx c) : ℤ) : ℚ) := by
    rw [calculate_rfm] at ht
    split at ht
    · cases ht
      rfl
    · cases ht
  simp only [Option.map_some', Option.getD_some, hrec, add_tenure_features,
    List.map_map]
  rfl

/-- C7 witness: a two-customer table with reference date 10. -/
theorem rfm_tenure_recency_consistent_witness :
    calculate_rfm [⟨1, 0, 10⟩, ⟨2, 5, 20⟩] (some 10) ≠ none ∧
    ((calculate_rfm [⟨1, 0, 10⟩, ⟨2, 5, 20⟩] (some 10)).map (·.recency)).getD [] =
      (add_tenure_features [⟨1, 0, 10⟩, ⟨2, 5, 20⟩] (some 10)).map
        fun p => ((p.2.recencyDays : ℤ) : ℚ) :=
  ⟨by with_unfolding_all decide,
   rfm_tenure_recency_consistent [⟨1, 0, 10⟩, ⟨2, 5, 20⟩] 10 (by with_unfolding_all decide)⟩

/-- C3 counterexample: on a non-empty single-customer transaction table
even the rank-based fallback binning fails (`pd.qcut` cannot form five
distinct bin edges from one rank), so `calculate_rfm` fails fatally. -/
theorem rfm_single_customer_binning_fails :
    calculate_rfm [⟨1, 0, 10⟩] none = none := by with_unfolding_all decide

/-- The ascending list `[1, 2, …, n]` as rationals: the sorted ranks of
any `n`-element column under the first-seen tie-break. -/
def iotaQ (n : ℕ) : List ℚ := (List.range n).map fun k => ((k + 1 : ℕ) : ℚ)

theorem keyLt_trans {vals : List ℚ} {a b c : ℕ}
    (h1 : keyLt vals a b) (h2 : keyLt vals b c) : keyLt vals a c := by
  rcases h1 with h1 | ⟨he1, hl1⟩ <;> rcases h2 with h2 | ⟨he2, hl2⟩
  · exact Or.inl (lt_trans h1 h2)
  · exact Or.inl (he2 ▸ h1)
  · exact Or.inl (he1 ▸ h2)
  · exact Or.inr ⟨he1.trans he2, lt_trans hl1 hl2⟩

theorem keyLt_irrefl (vals : List ℚ) (a : ℕ) : ¬ keyLt vals a a := by
  rintro (h | ⟨_, h⟩) <;> exact lt_irrefl _ h

theorem keyLt_total (vals : List ℚ) (a b : ℕ) (hne : a ≠ b) :
    keyLt vals a b ∨ keyLt vals b a := by
  rcases lt_trichotomy (vals.getD a 0) (vals.getD b 0) with h | h | h
  · exact Or.inl (Or.inl h)
  · rcases Nat.lt_or_ge a b with hab | hab
    · exact Or.inl (Or.inr ⟨h, hab⟩)
    · exact Or.inr (Or.inr ⟨h.symm, lt_of_le_of_ne hab (Ne.symm hne)⟩)
  · exact Or.inr (Or.inl h)

theorem iotaQ_length (n : ℕ) : (iotaQ n).length = n := by simp [iotaQ]

theorem iotaQ_sorted (n : ℕ) : (iotaQ n).Sorted (· ≤ ·) := by
  rw [iotaQ, List.Sorted, List.pairwise_map]
  exact (List.pairwise_lt_range n).imp fun h => by exact_mod_cast Nat.le_of_lt (by omega)

theorem rankFirst_length (vals : List ℚ) : (rankFirst vals).length = vals.length := by
  simp [rankFirst]

/-- The first-seen ranks of an `n`-element column are exactly a
permutation of `1, …, n`. -/
theorem rankFirst_perm_iota (vals : List ℚ) :
    (rankFirst vals).Perm (iotaQ vals.length) := by
  set n := vals.length with hn
  have hmono : ∀ a b : ℕ, a < n → b < n → keyLt vals a b →
      ((Finset.range n).filter fun j => keyLt vals j a).card <
      ((Finset.range n).filter fun j => keyLt vals j b).card := by
    intro a b ha hb hab
    apply Finset.card_lt_card
    rw [Finset.ssubset_iff_of_subset]
    · exact ⟨a, Finset.mem_filter.mpr ⟨Finset.mem_range.mpr ha, hab⟩,
        fun hmem => keyLt_irrefl vals a (Finset.mem_filter.mp hmem).2⟩
    · intro k hk
      rw [Finset.mem_filter] at hk ⊢
      exact ⟨hk.1, keyLt_trans hk.2 hab⟩
  have hinj : ∀ a ∈ List.range n, ∀ b ∈ List.range n,
      (((1 + ((Finset.range n).filter fun j => keyLt vals j a).card : ℕ)) : ℚ) =
      (((1 + ((Finset.range n).filter fun j => keyLt vals j b).card : ℕ)) : ℚ) →
      a = b := by
    intro a ha b hb heq
    by_contra hne
    have ha' := List.mem_range.mp ha
    have hb' := List.mem_range.mp hb
    have heq' : 1 + ((Finset.range n).filter fun j => keyLt vals j a).card =
        1 + ((Finset.range n).filter fun j => keyLt vals j b).card := by
      exact_mod_cast heq
    rcases keyLt_total vals a b hne with h | h
    · have := hmono a b ha' hb' h
      omega
    · have := hmono b a hb' ha' h
      omega
  have hnd1 : (rankFirst vals).Nodup := by
    rw [rankFirst]
    exact (List.nodup_range n).map_on hinj
  have hsub : ∀ x ∈ rankFirst vals, x ∈ iotaQ n := by
    intro x hx
    rw [rankFirst, List.mem_map] at hx
    obtain ⟨i, hi, rfl⟩ := hx
    have hi' := List.mem_range.mp hi
    rw [iotaQ, List.mem_map]
    refine ⟨((Finset.range n).filter fun j => keyLt vals j i).card,
      List.mem_range.mpr ?_, by push_cast; ring⟩
    have hss : ((Finset.range n).filter fun j => keyLt vals j i) ⊆
        (Finset.range n).erase i := by
      intro k hk
      rw [Finset.mem_filter] at hk
      rw [Finset.mem_erase]
      exact ⟨fun hki => keyLt_irrefl vals i (hki ▸ hk.2), hk.1⟩
    have hcard := Finset.card_le_card hss
    rw [Finset.card_erase_of_mem (Finset.mem_range.mpr hi'), Finset.card_range] at hcard
    omega
  have hlen : (iotaQ n).length ≤ (rankFirst vals).length := by
    rw [iotaQ_length, rankFirst_length]
  exact (List.subperm_of_subset hnd1 hsub).perm_of_length_le hlen

/-- Sorting the first-seen ranks of a column gives exactly `[1, …, n]`. -/
theorem sortQ_rankFirst (vals : List ℚ) :
    sortQ (rankFirst vals) = iotaQ vals.length := by
  exact List.eq_of_perm_of_sorted
    ((List.perm_insertionSort _ _).trans (rankFirst_perm_iota vals))
    (List.sorted_insertionSort _ _) (iotaQ_sorted _)

/-- Linear-interpolation quantiles of the sorted rank list `[1, …, n]`
have the closed form `1 + q·(n-1)`. -/
theorem quantileSorted_iota (n : ℕ) (hn : 1 ≤ n) (q : ℚ) (h0 : 0 ≤ q) (h1 : q ≤ 1) :
    quantileSorted (iotaQ n) q = 1 + q * ((n : ℚ) - 1) := by
  have hlen : (iotaQ n).length = n := iotaQ_length n
  have hn1 : (0 : ℚ) ≤ (n : ℚ) - 1 := by
    have : (1 : ℚ) ≤ (n : ℚ) := by exact_mod_cast hn
    linarith
  have hpos0 : 0 ≤ q * ((n : ℚ) - 1) := mul_nonneg h0 hn1
  have hposle : q * ((n : ℚ) - 1) ≤ (n : ℚ) - 1 := by
    calc q * ((n : ℚ) - 1) ≤ 1 * ((n : ℚ) - 1) := mul_le_mul_of_nonneg_right h1 hn1
    _ = (n : ℚ) - 1 := one_mul _
  have hfl0 : 0 ≤ ⌊q * ((n : ℚ) - 1)⌋ := Int.floor_nonneg.mpr hpos0
  have hcast : ((Int.toNat ⌊q * ((n : ℚ) - 1)⌋ : ℕ) : ℚ) = ((⌊q * ((n : ℚ) - 1)⌋ : ℤ) : ℚ) := by
    exact_mod_cast congrArg (fun z : ℤ => (z : ℚ)) (Int.toNat_of_nonneg hfl0)
  have hile : ((Int.toNat ⌊q * ((n : ℚ) - 1)⌋ : ℕ) : ℚ) ≤ q * ((n : ℚ) - 1) := by
    rw [hcast]; exact Int.floor_le _
  have hin : Int.toNat ⌊q * ((n : ℚ) - 1)⌋ < n := by
    have hle : ((Int.toNat ⌊q * ((n : ℚ) - 1)⌋ : ℕ) : ℚ) ≤ (n : ℚ) - 1 :=
      le_trans hile hposle
    have h2 : ((Int.toNat ⌊q * ((n : ℚ) - 1)⌋ : ℕ) : ℚ) + 1 ≤ (n : ℚ) := by linarith
    exact_mod_cast h2
  have hgetD : (iotaQ n).getD (Int.toNat ⌊q * ((n : ℚ) - 1)⌋) 0 =
      ((Int.toNat ⌊q * ((n : ℚ) - 1)⌋ + 1 : ℕ) : ℚ) := by
    rw [List.getD_eq_getElem (iotaQ n) 0 (by rw [hlen]; exact hin)]
    simp [iotaQ]
  simp only [quantileSorted, hlen]
  by_cases hsucc : Int.toNat ⌊q * ((n : ℚ) - 1)⌋ + 1 < n
  · have hgetD2 : (iotaQ n).getD (Int.toNat ⌊q * ((n : ℚ) - 1)⌋ + 1)
        ((iotaQ n).getD (Int.toNat ⌊q * ((n : ℚ) - 1)⌋) 0) =
        ((Int.toNat ⌊q * ((n : ℚ) - 1)⌋ + 2 : ℕ) : ℚ) := by
      rw [List.getD_eq_getElem (iotaQ n) _ (by rw [hlen]; exact hsucc)]
      simp [iotaQ]
      ring
    rw [hgetD2, hgetD]
    push_cast
    ring
  · have hieq : ((Int.toNat ⌊q * ((n : ℚ) - 1)⌋ : ℕ) : ℚ) = q * ((n : ℚ) - 1) := by
      refine le_antisymm hile ?_
      have hnle : n ≤ Int.toNat ⌊q * ((n : ℚ) - 1)⌋ + 1 := not_lt.mp hsucc
      have hnle' : (n : ℚ) ≤ ((Int.toNat ⌊q * ((n : ℚ) - 1)⌋ : ℕ) : ℚ) + 1 := by
        exact_mod_cast hnle
      linarith
    have hgetD2 : (iotaQ n).getD (Int.toNat ⌊q * ((n : ℚ) - 1)⌋ + 1)
        ((iotaQ n).getD (Int.toNat ⌊q * ((n : ℚ) - 1)⌋) 0) =
        (iotaQ n).getD (Int.toNat ⌊q * ((n : ℚ) - 1)⌋) 0 := by
      apply List.getD_eq_default
      rw [hlen]
      omega
    rw [hgetD2, hgetD]
    push_cast
    push_cast at hieq
    linarith [hieq]

theorem findIdxO_some_lt {p : ℚ → Bool} :
    ∀ {l : List ℚ} {i : ℕ}, findIdxO p l = some i → i < l.length := by
  intro l
  induction l with
  | nil => intro i h; cases h
  | cons a l ih =>
    intro i h
    rw [findIdxO] at h
    by_cases hpa : p a
    · rw [if_pos hpa] at h
      cases h
      simp
    · rw [if_neg hpa] at h
      rw [Option.map_eq_some'] at h
      obtain ⟨j, hj, rfl⟩ := h
      simpa using Nat.succ_lt_succ (ih hj)

theorem findIdxO_isSome {p : ℚ → Bool} :
    ∀ {l : List ℚ}, (∃ x ∈ l, p x = true) → (findIdxO p l).isSome := by
  intro l
  induction l with
  | nil => rintro ⟨x, hx, -⟩; cases hx
  | cons a l ih =>
    rintro ⟨x, hx, hpx⟩
    rw [findIdxO]
    by_cases hpa : p a
    · rw [if_pos hpa]; rfl
    · rw [if_neg hpa]
      rw [List.mem_cons] at hx
      rcases hx with rfl | hx
      · exact absurd hpx hpa
      · simpa using ih ⟨x, hx, hpx⟩

theorem seqO_eq_some {α : Type} :
    ∀ {l : List (Option α)} {out : List α}, seqO l = some out →
      out.length = l.length ∧ ∀ b ∈ out, some b ∈ l := by
  intro l
  induction l with
  | nil =>
    intro out h
    rw [seqO] at h
    cases h
    simp
  | cons o l ih =>
    intro out h
    cases o with
    | none => rw [seqO] at h; cases h
    | some a =>
      rw [seqO] at h
      rw [Option.map_eq_some'] at h
      obtain ⟨rest, hrest, rfl⟩ := h
      obtain ⟨hlen, hmem⟩ := ih hrest
      refine ⟨by simpa using hlen, ?_⟩
      intro b hb
      rw [List.mem_cons] at hb
      rcases hb with rfl | hb
      · exact List.mem_cons_self _ _
      · exact List.mem_cons_of_mem _ (hmem b hb)

theorem seqO_isSome {α : Type} :
    ∀ {l : List (Option α)}, (∀ o ∈ l, o.isSome) → (seqO l).isSome := by
  intro l
  induction l with
  | nil => intro _; rfl
  | cons o l ih =>
    intro hall
    cases ho : o with
    | none =>
      have := hall o (List.mem_cons_self o l)
      rw [ho] at this
      cases this
    | some a =>
      rw [seqO]
      have hrest := ih fun o' ho' => hall o' (List.mem_cons_of_mem _ ho')
      rw [Option.isSome_iff_exists] at hrest
      obtain ⟨rest, hrest⟩ := hrest
      rw [hrest]
      rfl

/-- Whatever `qcut` returns on success has one label per value, each
drawn from the first five entries of the label list. -/
theorem qcut_eq_some_spec (vals : List ℚ) (labels : List ℕ) (out : List ℕ)
    (h : qcut vals labels = some out) :
    out.length = vals.length ∧ ∀ s ∈ out, ∃ i, i < 5 ∧ s = labels.getD i 0 := by
  rw [qcut] at h
  by_cases hnd : ((List.range 6).map fun k : ℕ => quantileOf vals ((k : ℚ) / 5)).Nodup
  · rw [if_pos hnd] at h
    obtain ⟨hlen, hmem⟩ := seqO_eq_some h
    refine ⟨by simpa using hlen, ?_⟩
    intro s hs
    have hsome := hmem s hs
    rw [List.mem_map] at hsome
    obtain ⟨x, -, hx⟩ := hsome
    rw [Option.map_eq_some'] at hx
    obtain ⟨i, hfind, rfl⟩ := hx
    have hlt := findIdxO_some_lt hfind
    have htail : (((List.range 6).map fun k : ℕ =>
        quantileOf vals ((k : ℚ) / 5)).tail).length = 5 := by simp
    rw [htail] at hlt
    exact ⟨i, hlt, rfl⟩
  · rw [if_neg hnd] at h
    cases h

/-- On a column with at least two entries, `qcut` of the first-seen ranks
always succeeds: the quintile edges `1 + (k/5)(n-1)` are distinct and
every rank lies inside the outer edges. -/
theorem qcut_rank_isSome (vals : List ℚ) (labels : List ℕ) (h2 : 2 ≤ vals.length) :
    (qcut (rankFirst vals) labels).isSome := by
  have hq : ∀ k : ℕ, k ≤ 5 → quantileOf (rankFirst vals) ((k : ℚ) / 5) =
      1 + ((k : ℚ) / 5) * ((vals.length : ℚ) - 1) := by
    intro k hk
    rw [quantileOf, sortQ_rankFirst]
    refine quantileSorted_iota vals.length (by omega) _ (by positivity) ?_
    rw [div_le_one (by norm_num)]
    exact_mod_cast hk
  have hn1 : (0 : ℚ) < (vals.length : ℚ) - 1 := by
    have : (2 : ℚ) ≤ (vals.length : ℚ) := by exact_mod_cast h2
    linarith
  have hedges : ((List.range 6).map fun k : ℕ =>
      quantileOf (rankFirst vals) ((k : ℚ) / 5)).Nodup := by
    refine (List.nodup_range 6).map_on ?_
    intro a ha b hb heq
    have ha' : a ≤ 5 := Nat.lt_succ_iff.mp (List.mem_range.mp ha)
    have hb' : b ≤ 5 := Nat.lt_succ_iff.mp (List.mem_range.mp hb)
    rw [hq a ha', hq b hb'] at heq
    have h5 : (a : ℚ) / 5 * ((vals.length : ℚ) - 1) =
        (b : ℚ) / 5 * ((vals.length : ℚ) - 1) := by linarith
    have h6 := mul_right_cancel₀ (ne_of_gt hn1) h5
    field_simp at h6
    exact_mod_cast h6
  rw [qcut]
  rw [if_pos hedges]
  apply seqO_isSome
  intro o ho
  rw [List.mem_map] at ho
  obtain ⟨x, hx, rfl⟩ := ho
  rw [Option.isSome_map']
  apply findIdxO_isSome
  have hx5 : x ≤ (vals.length : ℚ) := by
    have hxi : x ∈ iotaQ vals.length := (rankFirst_perm_iota vals).subset hx
    rw [iotaQ, List.mem_map] at hxi
    obtain ⟨k, hk, rfl⟩ := hxi
    exact_mod_cast Nat.succ_le_of_lt (List.mem_range.mp hk)
  refine ⟨quantileOf (rankFirst vals) (((5 : ℕ) : ℚ) / 5), ?_, ?_⟩
  · show _ ∈ ((List.range 6).map fun k =>
      quantileOf (rankFirst vals) ((k : ℚ) / 5)).tail
    rw [show List.range 6 = [0, 1, 2, 3, 4, 5] from rfl]
    simp
  · rw [decide_eq_true_eq, hq 5 (by omega)]
    push_cast
    linarith [hx5]

/-- The try/except scoring of `Recency` and `Monetary` succeeds on any
column with at least two entries, with labels from the label list. -/
theorem scoreWithRankFallback_some (vals : List ℚ) (labels : List ℕ)
    (h2 : 2 ≤ vals.length) :
    ∃ out, scoreWithRankFallback vals labels = some out ∧
      out.length = vals.length ∧ ∀ s ∈ out, ∃ i, i < 5 ∧ s = labels.getD i 0 := by
  rw [scoreWithRankFallback]
  cases hraw : qcut vals labels with
  | some out =>
    obtain ⟨hlen, hmem⟩ := qcut_eq_some_spec vals labels out hraw
    exact ⟨out, rfl, hlen, hmem⟩
  | none =>
    obtain ⟨out, hout⟩ := Option.isSome_iff_exists.mp (qcut_rank_isSome vals labels h2)
    obtain ⟨hlen, hmem⟩ := qcut_eq_some_spec (rankFirst vals) labels out hout
    exact ⟨out, hout, by rw [hlen, rankFirst_length], hmem⟩

/-- The `Frequency` scoring (rank-based in both branches) succeeds on any
column with at least two entries, with labels from the label list. -/
theorem scoreRankOnly_some (vals : List ℚ) (labels : List ℕ)
    (h2 : 2 ≤ vals.length) :
    ∃ out, scoreRankOnly vals labels = some out ∧
      out.length = vals.length ∧ ∀ s ∈ out, ∃ i, i < 5 ∧ s = labels.getD i 0 := by
  rw [scoreRankOnly]
  obtain ⟨out, hout⟩ := Option.isSome_iff_exists.mp (qcut_rank_isSome vals labels h2)
  obtain ⟨hlen, hmem⟩ := qcut_eq_some_spec (rankFirst vals) labels out hout
  rw [hout]
  exact ⟨out, rfl, by rw [hlen, rankFirst_length], hmem⟩

theorem label_bounds_r : ∀ i, i < 5 →
    1 ≤ ([5, 4, 3, 2, 1] : List ℕ).getD i 0 ∧ ([5, 4, 3, 2, 1] : List ℕ).getD i 0 ≤ 5 := by
  decide

theorem label_bounds_fm : ∀ i, i < 5 →
    1 ≤ ([1, 2, 3, 4, 5] : List ℕ).getD i 0 ∧ ([1, 2, 3, 4, 5] : List ℕ).getD i 0 ≤ 5 := by
  decide

/-- C3 (amended): on any transaction table with at least two distinct
customers the quantile binning in `calculate_rfm` never fails — the
rank fallback guarantees five bins — and every R/F/M score is in
`{1,…,5}` with one score per customer; with a single distinct customer
even the fallback fails (see the counterexample). -/
theorem rfm_binning_fallback_succeeds (tx : List Tx) (refOpt : Option ℤ)
    (h2 : 2 ≤ (distinctCustomers tx).length) :
    ∃ t, calculate_rfm tx refOpt = some t ∧
      t.custs = distinctCustomers tx ∧
      t.rScore.length = (distinctCustomers tx).length ∧
      t.fScore.length = (distinctCustomers tx).length ∧
      t.mScore.length = (distinctCustomers tx).length ∧
      (∀ s ∈ t.rScore, 1 ≤ s ∧ s ≤ 5) ∧
      (∀ s ∈ t.fScore, 1 ≤ s ∧ s ≤ 5) ∧
      (∀ s ∈ t.mScore, 1 ≤ s ∧ s ≤ 5) := by
  obtain ⟨rS, hrS, hrLen, hrMem⟩ := scoreWithRankFallback_some
    ((distinctCustomers tx).map fun c =>
      ((refOpt.getD (maxDate tx + 1) - lastOf (custDates tx c) : ℤ) : ℚ))
    [5, 4, 3, 2, 1] (by simpa using h2)
  obtain ⟨fS, hfS, hfLen, hfMem⟩ := scoreRankOnly_some
    ((distinctCustomers tx).map fun c =>
      ((tx.filter (fun t => t.cust = c)).length : ℚ))
    [1, 2, 3, 4, 5] (by simpa using h2)
  obtain ⟨mS, hmS, hmLen, hmMem⟩ := scoreWithRankFallback_some
    ((distinctCustomers tx).map fun c =>
      ((tx.filter (fun t => t.cust = c)).map (·.amount)).sum)
    [1, 2, 3, 4, 5] (by simpa using h2)
  have heq : calculate_rfm tx refOpt =
      some { custs := distinctCustomers tx,
             recency := (distinctCustomers tx).map fun c =>
               ((refOpt.getD (maxDate tx + 1) - lastOf (custDates tx c) : ℤ) : ℚ),
             frequency := (distinctCustomers tx).map fun c =>
               ((tx.filter (fun t => t.cust = c)).length : ℚ),
             monetary := (distinctCustomers tx).map fun c =>
               ((tx.filter (fun t => t.cust = c)).map (·.amount)).sum,
             rScore := rS, fScore := fS, mScore := mS,
             rfmScore := (rS.zip (fS.zip mS)).map fun p =>
               toString p.1 ++ toString p.2.1 ++ toString p.2.2,
             segment := (rS.zip (fS.zip mS)).map fun p =>
               assign_segment p.1 p.2.1 p.2.2 } := by
    rw [calculate_rfm, hrS, hfS, hmS]
  refine ⟨_, heq, rfl, ?_, ?_, ?_, ?_, ?_, ?_⟩
  · simpa using hrLen
  · simpa using hfLen
  · simpa using hmLen
  · intro s hs
    obtain ⟨i, hi, rfl⟩ := hrMem s hs
    exact label_bounds_r i hi
  · intro s hs
    obtain ⟨i, hi, rfl⟩ := hfMem s hs
    exact label_bounds_fm i hi
  · intro s hs
    obtain ⟨i, hi, rfl⟩ := hmMem s hs
    exact label_bounds_fm i hi

/-- C3 witness: a two-customer transaction table, on which binning
succeeds with all scores in range. -/
theorem rfm_binning_fallback_succeeds_witness :
    2 ≤ (distinctCustomers [⟨1, 0, 10⟩, ⟨2, 5, 20⟩]).length ∧
    ∃ t, calculate_rfm [⟨1, 0, 10⟩, ⟨2, 5, 20⟩] none = some t ∧
      t.custs = distinctCustomers [⟨1, 0, 10⟩, ⟨2, 5, 20⟩] ∧
      t.rScore.length = (distinctCustomers [⟨1, 0, 10⟩, ⟨2, 5, 20⟩]).length ∧
      t.fScore.length = (distinctCustomers [⟨1, 0, 10⟩, ⟨2, 5, 20⟩]).length ∧
      t.mScore.length = (distinctCustomers [⟨1, 0, 10⟩, ⟨2, 5, 20⟩]).length ∧
      (∀ s ∈ t.rScore, 1 ≤ s ∧ s ≤ 5) ∧
      (∀ s ∈ t.fScore, 1 ≤ s ∧ s ≤ 5) ∧
      (∀ s ∈ t.mScore, 1 ≤ s ∧ s ≤ 5) :=
  ⟨by decide, rfm_binning_fallback_succeeds [⟨1, 0, 10⟩, ⟨2, 5, 20⟩] none (by decide)⟩
